import Mathlib

/-!
Shallow embedding of the Pin Manager from
src/src/core/components/pin/pin-manager.js.

The JS Sets directPins and recursivePins are modelled as insertion-ordered
duplicate-free lists of strings (JS Set semantics: add appends when absent,
delete removes the element keeping the order of the others).

External collaborators (the Pin Set Codec, the Content Store / dag, the Root
Datastore, CID string/buffer conversion) are abstracted into a Collab record of
function parameters; every fallible collaborator call returns an Except with a
string error, mirroring the node-style (err, res) callbacks.  The lock is not
modelled (single-threaded interleaving-free semantics); whether a code path
would have taken the read lock for the indirect search is reported as a
Boolean flag by isPinnedWithType.

The persisted state reachable from the well-known key /local/pins is modelled
as World.dsRoot: the composition of repo.datastore.put/get with dag.put/get at
the stored address, on the assumption that the content store returns exactly
the node that was stored (it is an external collaborator).
-/

/-- JS Set.add on an insertion-ordered duplicate-free list of strings:
appends the key when it is absent, otherwise leaves the set unchanged. -/
def setAdd (s : List String) (k : String) : List String :=
  if k ∈ s then s else s ++ [k]

/-- JS Set.delete: removes the key, keeping the order of the other members. -/
def setDelete (s : List String) (k : String) : List String :=
  s.filter (fun x => x ≠ k)

/-- JS new Set(iterable): deduplicates a list keeping first occurrences. -/
def newSetOf (l : List String) : List String :=
  l.foldl setAdd []

/-- The four pin types of the PinTypes table (pin-manager.js lines 32-37). -/
inductive PinType where
  | direct
  | recursive
  | indirect
  | all
deriving DecidableEq, Repr

/-- A JavaScript value as far as checkPinType can observe it: a string, or a
value of any other runtime type. -/
inductive JSVal where
  | str (s : String)
  | num (n : Int)
  | boolean (b : Bool)
  | nullJS
  | undef
deriving DecidableEq, Repr

/-- An err-code error as produced by invalidPinTypeErr: the error code together
with the offending value interpolated into the message (the message text
itself is elided; it mentions the value and the four valid names). -/
structure ErrCode where
  code : String
  value : JSVal
deriving DecidableEq, Repr

/-- Object.keys(PinTypes), in source order (pin-manager.js lines 32-37). -/
def pinTypeKeys : List String :=
  ["direct", "recursive", "indirect", "all"]

/-- invalidPinTypeErr (pin-manager.js lines 27-30). -/
def invalidPinTypeErr (t : JSVal) : ErrCode :=
  { code := "ERR_INVALID_PIN_TYPE", value := t }

/-- PinManager.checkPinType (pin-manager.js lines 358-362): returns an error
for a non-string or a string that is not a key of PinTypes, and nothing
(undefined) for the four valid names.  It is a pure static function: no state,
no I/O, no lock. -/
def checkPinType (t : JSVal) : Option ErrCode :=
  match t with
  | .str s => if s ∈ pinTypeKeys then none else some (invalidPinTypeErr t)
  | v => some (invalidPinTypeErr v)

/-- The in-memory state owned by a PinManager instance: the two pin sets and
the two-entry link cache (a cached DAGLink is identified by the encoded
pin-set it points at, of abstract type Enc). -/
structure PMState (Enc : Type) where
  directPins : List String
  recursivePins : List String
  cacheDirect : Option Enc
  cacheRecursive : Option Enc
deriving DecidableEq, Repr

/-- The fresh state built by the PinManager constructor (lines 45-47):
both sets empty, link cache empty. -/
def freshState (Enc : Type) : PMState Enc :=
  { directPins := [], recursivePins := [], cacheDirect := none,
    cacheRecursive := none }

/-- The durable state reachable from the well-known datastore key: the pinned
root record (its two links, direct then recursive) currently persisted under
/local/pins, or none when the key has never been written. -/
structure World (Enc : Type) where
  dsRoot : Option (Enc × Enc)
deriving DecidableEq, Repr

/-- The external collaborators, abstracted as functions.
toBuf models (new CID(key)).buffer; toB58String models toB58String
(lines 23-25).  storeSet and loadSet are the Pin Set Codec (loadSet is applied
to the link of the requested label of the root record).  putEmpty, dagPutRoot,
reopen and dsPutRoot are the outcomes of the corresponding flush steps.
getRecursive models dag.getRecursive on a buffer; cidOf models
util.cid(util.serialize(node)).toString(); hasDescendant models the composite
dag.get + pinset.hasDescendant success path against the recursive root named
by its stored key string. -/
structure Collab (Enc Node : Type) where
  toBuf : String → String
  toB58String : String → String
  storeSet : List String → String → Except String Enc
  loadSet : Enc → Except String (List String)
  putEmpty : Except String Unit
  dagPutRoot : Enc × Enc → Except String Unit
  reopen : Except String Unit
  dsPutRoot : Enc × Enc → Except String Unit
  getRecursive : String → Except String (List Node)
  cidOf : Node → String
  hasDescendant : String → String → Bool

/-- PinManager.directKeys (lines 51-53): the direct set as CID buffers. -/
def directKeys {Enc Node : Type} (X : Collab Enc Node) (st : PMState Enc) :
    List String :=
  st.directPins.map X.toBuf

/-- PinManager.recursiveKeys (lines 55-57). -/
def recursiveKeys {Enc Node : Type} (X : Collab Enc Node) (st : PMState Enc) :
    List String :=
  st.recursivePins.map X.toBuf

/-- The cache entry after one storeSet attempt of the flush: set on success,
unchanged on failure (async.parallel runs every task; a successful task has
already written its cache entry even when a sibling task fails). -/
def cacheAfter {Enc : Type} (res : Except String Enc) (old : Option Enc) :
    Option Enc :=
  match res with
  | .ok l => some l
  | .error _ => old

/-- PinManager.flushPins (lines 132-228).  Step 1 (parallel): reuse the cached
direct link or encode the direct set; same for the recursive link; ensure the
empty node exists.  Step 2: build and store the two-link root record.
Step 3: reopen the repo when closed.  Step 4: persist the root address under
the well-known key.  Any failure aborts with that error; the in-memory pin
sets are never touched by the flush (only the link cache is).  On a failure
the durable root is left as it was. -/
def flushPins {Enc Node : Type} (X : Collab Enc Node) (st : PMState Enc)
    (w : World Enc) : PMState Enc × World Enc × Except String (Enc × Enc) :=
  let dRes : Except String Enc :=
    match st.cacheDirect with
    | some l => .ok l
    | none => X.storeSet (directKeys X st) "direct"
  let rRes : Except String Enc :=
    match st.cacheRecursive with
    | some l => .ok l
    | none => X.storeSet (recursiveKeys X st) "recursive"
  let st1 : PMState Enc :=
    { st with cacheDirect := cacheAfter dRes st.cacheDirect,
              cacheRecursive := cacheAfter rRes st.cacheRecursive }
  match dRes with
  | .error e => (st1, w, .error e)
  | .ok dLink =>
    match rRes with
    | .error e => (st1, w, .error e)
    | .ok rLink =>
      match X.putEmpty with
      | .error e => (st1, w, .error e)
      | .ok _ =>
        match X.dagPutRoot (dLink, rLink) with
        | .error e => (st1, w, .error e)
        | .ok _ =>
          match X.reopen with
          | .error e => (st1, w, .error e)
          | .ok _ =>
            match X.dsPutRoot (dLink, rLink) with
            | .error e => (st1, w, .error e)
            | .ok _ =>
              (st1, { w with dsRoot := some (dLink, rLink) },
               .ok (dLink, rLink))

/-- The result a mutation hands to its callback: the empty-list result of the
no-new-keys (or no-keys) short-circuit, or the flushed root record. -/
inductive OpOutcome (Enc : Type) where
  | emptyList
  | flushed (root : Enc × Enc)
deriving DecidableEq, Repr

/-- Which stored pin set a mutation targets ('direct' or 'recursive'). -/
inductive StoreKind where
  | direct
  | recursive
deriving DecidableEq, Repr

/-- The target in-memory set of an addPins call. -/
def targetSet {Enc : Type} (k : StoreKind) (st : PMState Enc) : List String :=
  match k with
  | .direct => st.directPins
  | .recursive => st.recursivePins

/-- keys.filter(key => !pinSet.has(key)) (line 101): the keys actually new. -/
def addedKeys {Enc : Type} (keys : List String) (k : StoreKind)
    (st : PMState Enc) : List String :=
  keys.filter (fun key => key ∉ targetSet k st)

/-- The in-memory state right after the mutation part of addPins (lines
104-107): the link-cache entry of the mutated type dropped, the new keys
appended verbatim to the target set. -/
def addMutatedState {Enc : Type} (keys : List String) (k : StoreKind)
    (st : PMState Enc) : PMState Enc :=
  match k with
  | .direct =>
    { st with cacheDirect := none,
              directPins := (addedKeys keys .direct st).foldl setAdd
                st.directPins }
  | .recursive =>
    { st with cacheRecursive := none,
              recursivePins := (addedKeys keys .recursive st).foldl setAdd
                st.recursivePins }

/-- PinManager.addPins (lines 99-110), the shared body of addDirectPins and
addRecursivePins: filter out keys already present; when none remain, answer
the empty list without mutating or flushing; otherwise drop the target link
cache entry, insert the keys, and flush. -/
def addPins {Enc Node : Type} (X : Collab Enc Node) (keys : List String)
    (k : StoreKind) (st : PMState Enc) (w : World Enc) :
    PMState Enc × World Enc × Except String (OpOutcome Enc) :=
  if (addedKeys keys k st).isEmpty then (st, w, .ok .emptyList)
  else
    let p := flushPins X (addMutatedState keys k st) w
    (p.1, p.2.1, p.2.2.map OpOutcome.flushed)

/-- PinManager.addDirectPins (lines 95-97). -/
def addDirectPins {Enc Node : Type} (X : Collab Enc Node) (keys : List String)
    (st : PMState Enc) (w : World Enc) :
    PMState Enc × World Enc × Except String (OpOutcome Enc) :=
  addPins X keys .direct st w

/-- PinManager.addRecursivePins (lines 91-93). -/
def addRecursivePins {Enc Node : Type} (X : Collab Enc Node) (keys : List String)
    (st : PMState Enc) (w : World Enc) :
    PMState Enc × World Enc × Except String (OpOutcome Enc) :=
  addPins X keys .recursive st w

/-- The in-memory state right after the removal loop of rmPins (lines
116-122): each key is removed from the recursive set when removal is recursive
and the key is currently a recursive pin, otherwise removed from the direct
set.  Note: no link-cache entry is dropped here. -/
def rmMutatedState {Enc : Type} (keys : List String) (recursive : Bool)
    (st : PMState Enc) : PMState Enc :=
  keys.foldl
    (fun s key =>
      if recursive = true ∧ key ∈ s.recursivePins then
        { s with recursivePins := setDelete s.recursivePins key }
      else
        { s with directPins := setDelete s.directPins key })
    st

/-- PinManager.rmPins (lines 112-126): empty keys short-circuit to the empty
list without taking the lock; otherwise run the removal loop and flush. -/
def rmPins {Enc Node : Type} (X : Collab Enc Node) (keys : List String)
    (recursive : Bool) (st : PMState Enc) (w : World Enc) :
    PMState Enc × World Enc × Except String (OpOutcome Enc) :=
  if keys.isEmpty then (st, w, .ok .emptyList)
  else
    let p := flushPins X (rmMutatedState keys recursive st) w
    (p.1, p.2.1, p.2.2.map OpOutcome.flushed)

/-- PinManager.load (lines 230-266): when the well-known key is absent the
"No pins to load" error is caught and load succeeds leaving the state as it
was; otherwise both sets are decoded from the root record (recursive first,
direct second, as in the parallel list) and the in-memory sets are replaced
wholesale by the decoded keys canonicalized through toB58String. -/
def load {Enc Node : Type} (X : Collab Enc Node) (st : PMState Enc)
    (w : World Enc) : PMState Enc × World Enc × Except String Unit :=
  match w.dsRoot with
  | none => (st, w, .ok ())
  | some root =>
    match X.loadSet root.2, X.loadSet root.1 with
    | .ok rKeys, .ok dKeys =>
      ({ st with directPins := newSetOf (dKeys.map X.toB58String),
                 recursivePins := newSetOf (rKeys.map X.toB58String) },
       w, .ok ())
    | .error e, _ => (st, w, .error e)
    | .ok _, .error e => (st, w, .error e)

/-- The object handed to the isPinnedWithType callback. -/
structure PinResult where
  key : String
  pinned : Bool
  reason : Option String
deriving DecidableEq, Repr

/-- PinManager.isPinnedWithType (lines 268-320).  The input is canonicalized
through toB58String; the four lock-free fast paths are tried in source order;
only when none answers does the read-locked indirect search run, detecting the
first recursive root whose encoded set has the key as a descendant (the search
order over the recursive roots is the set's insertion order here; the source
only guarantees some matching root).  The second component of the result
records whether the read-locked indirect search ran. -/
def isPinnedWithType {Enc Node : Type} (X : Collab Enc Node) (st : PMState Enc)
    (multihash : String) (type : PinType) : PinResult × Bool :=
  let key := X.toB58String multihash
  if (type = PinType.recursive ∨ type = PinType.all) ∧
      key ∈ st.recursivePins then
    ({ key := key, pinned := true, reason := some "recursive" }, false)
  else if type = PinType.recursive then
    ({ key := key, pinned := false, reason := none }, false)
  else if (type = PinType.direct ∨ type = PinType.all) ∧
      key ∈ st.directPins then
    ({ key := key, pinned := true, reason := some "direct" }, false)
  else if type = PinType.direct then
    ({ key := key, pinned := false, reason := none }, false)
  else
    match st.recursivePins.find? (fun r => X.hasDescendant r key) with
    | some r => ({ key := key, pinned := true, reason := some r }, true)
    | none => ({ key := key, pinned := false, reason := none }, true)

/-- The loop body of getIndirectKeys (lines 62-83), one recursive root at a
time: fetch the root's transitive closure, derive each fetched node's own
address, drop the addresses that are recursive pins themselves, and add the
rest to the accumulated set; a fetch failure aborts the whole operation. -/
def getIndirectKeysGo {Enc Node : Type} (X : Collab Enc Node)
    (pins : List String) : List String → List String →
    Except String (List String)
  | [], acc => .ok acc
  | r :: rs, acc =>
    match X.getRecursive (X.toBuf r) with
    | .error e => .error e
    | .ok nodes =>
      getIndirectKeysGo X pins rs
        (List.foldl setAdd acc
          ((nodes.map X.cidOf).filter (fun key => key ∉ pins)))

/-- PinManager.getIndirectKeys (lines 59-89), under the read lock. -/
def getIndirectKeys {Enc Node : Type} (X : Collab Enc Node) (st : PMState Enc) :
    Except String (List String) :=
  getIndirectKeysGo X st.recursivePins st.recursivePins []

/-! General facts about the JS Set model and the flush. -/

theorem mem_setAdd {s : List String} {k a : String} :
    a ∈ setAdd s k ↔ a ∈ s ∨ a = k := by
  by_cases h : k ∈ s
  · rw [setAdd, if_pos h]
    exact ⟨Or.inl, fun hc => hc.elim id (fun he => he ▸ h)⟩
  · rw [setAdd, if_neg h]
    simp

theorem mem_foldl_setAdd : ∀ (l acc : List String) (a : String),
    a ∈ List.foldl setAdd acc l ↔ a ∈ acc ∨ a ∈ l := by
  intro l
  induction l with
  | nil => intro acc a; simp
  | cons x xs ih =>
    intro acc a
    rw [List.foldl_cons, ih, mem_setAdd]
    simp only [List.mem_cons]
    tauto

theorem mem_newSetOf {l : List String} {a : String} :
    a ∈ newSetOf l ↔ a ∈ l := by
  rw [newSetOf, mem_foldl_setAdd]
  simp

theorem foldl_setAdd_of_disjoint : ∀ (l acc : List String), l.Nodup →
    (∀ a ∈ l, a ∉ acc) → List.foldl setAdd acc l = acc ++ l := by
  intro l
  induction l with
  | nil => intro acc _ _; simp
  | cons x xs ih =>
    intro acc hnd hdisj
    have hx : x ∉ acc := hdisj x (by simp)
    have hdis : ∀ a ∈ xs, a ∉ acc ++ [x] := by
      intro a ha hmem
      rcases List.mem_append.mp hmem with hacc | hone
      · exact hdisj a (List.mem_cons_of_mem x ha) hacc
      · have hax : a = x := by simpa using hone
        exact (List.nodup_cons.mp hnd).1 (hax ▸ ha)
    rw [List.foldl_cons, setAdd, if_neg hx,
      ih (acc ++ [x]) (List.nodup_cons.mp hnd).2 hdis]
    simp

theorem newSetOf_eq_self {l : List String} (h : l.Nodup) : newSetOf l = l := by
  rw [newSetOf, foldl_setAdd_of_disjoint l [] h (by simp)]
  simp

theorem flushPins_directPins {Enc Node : Type} (X : Collab Enc Node)
    (st : PMState Enc) (w : World Enc) :
    (flushPins X st w).1.directPins = st.directPins := by
  simp only [flushPins]
  repeat' split
  all_goals rfl

theorem flushPins_recursivePins {Enc Node : Type} (X : Collab Enc Node)
    (st : PMState Enc) (w : World Enc) :
    (flushPins X st w).1.recursivePins = st.recursivePins := by
  simp only [flushPins]
  repeat' split
  all_goals rfl

theorem flushPins_world_or_ok {Enc Node : Type} (X : Collab Enc Node)
    (st : PMState Enc) (w : World Enc) :
    (flushPins X st w).2.1 = w ∨
      ∃ root, (flushPins X st w).2.2 = Except.ok root := by
  simp only [flushPins]
  repeat' split
  all_goals first | exact Or.inl rfl | exact Or.inr ⟨_, rfl⟩

theorem flushPins_error_world {Enc Node : Type} (X : Collab Enc Node)
    (st : PMState Enc) (w : World Enc) (e : String)
    (h : (flushPins X st w).2.2 = Except.error e) :
    (flushPins X st w).2.1 = w := by
  rcases flushPins_world_or_ok X st w with hw | ⟨root, hok⟩
  · exact hw
  · rw [hok] at h
    cases h

/-- Concrete collaborators for evaluating the model: the encoded form of a
pin set is the key list itself, every store step succeeds, buffer and base58
conversion are the identity, the transitive closure of a root is the root
alone, and b is the one proper descendant of a. -/
def collabId : Collab (List String) String :=
  { toBuf := fun s => s
    toB58String := fun s => s
    storeSet := fun l _ => .ok l
    loadSet := fun l => .ok l
    putEmpty := .ok ()
    dagPutRoot := fun _ => .ok ()
    reopen := .ok ()
    dsPutRoot := fun _ => .ok ()
    getRecursive := fun r => .ok [r]
    cidOf := fun s => s
    hasDescendant := fun r k => r == "a" && k == "b" }

/-! Claim C7: pin-type validation. -/

/-- Claim C7: checkPinType accepts an input iff it is exactly one of the four
strings direct, recursive, indirect, all; every other string and every
non-string value yields the ERR_INVALID_PIN_TYPE failure carrying the
offending value.  (In the model checkPinType is a pure function of its
argument: no state, no I/O, no lock.) -/
theorem checkPinType_valid_iff (t : JSVal) :
    (checkPinType t = none ↔
      t = JSVal.str "direct" ∨ t = JSVal.str "recursive" ∨
        t = JSVal.str "indirect" ∨ t = JSVal.str "all") ∧
    (checkPinType t = none ∨
      checkPinType t = some { code := "ERR_INVALID_PIN_TYPE", value := t }) := by
  cases t with
  | str s =>
    by_cases h : s ∈ pinTypeKeys
    · constructor
      · simp only [checkPinType, if_pos h, true_iff]
        simpa [pinTypeKeys] using h
      · exact Or.inl (by simp [checkPinType, h])
    · constructor
      · simp only [checkPinType, if_neg h]
        constructor
        · intro hc
          cases hc
        · intro hc
          exact absurd (by simpa [pinTypeKeys] using hc) h
      · exact Or.inr (by simp [checkPinType, h, invalidPinTypeErr])
  | num n => exact ⟨by simp [checkPinType], Or.inr (by simp [checkPinType, invalidPinTypeErr])⟩
  | boolean b => exact ⟨by simp [checkPinType], Or.inr (by simp [checkPinType, invalidPinTypeErr])⟩
  | nullJS => exact ⟨by simp [checkPinType], Or.inr (by simp [checkPinType, invalidPinTypeErr])⟩
  | undef => exact ⟨by simp [checkPinType], Or.inr (by simp [checkPinType, invalidPinTypeErr])⟩

/-! Claim C8: load with the well-known root key absent. -/

/-- Claim C8 counterexample: load with no root key present succeeds, but it
does not empty the in-memory sets — it leaves them exactly as they were, so on
an instance whose direct set already holds a member the direct set is not
empty after the successful load, contrary to the claim that the load leaves
both sets empty. -/
theorem load_absent_sets_not_emptied :
    (load collabId
        { directPins := ["a"], recursivePins := [], cacheDirect := none,
          cacheRecursive := none } { dsRoot := none }).2.2 = Except.ok () ∧
      (load collabId
        { directPins := ["a"], recursivePins := [], cacheDirect := none,
          cacheRecursive := none } { dsRoot := none }).1.directPins ≠ [] := by
  refine ⟨rfl, ?_⟩
  intro h
  cases h

/-- Claim C8 (amended): when load finds the well-known root key absent it
completes successfully (not an error) and leaves the in-memory state — in
particular both pin sets — unchanged; on a fresh instance the two sets
therefore remain empty. -/
theorem load_absent_ok_state_unchanged {Enc Node : Type} (X : Collab Enc Node)
    (st : PMState Enc) (w : World Enc) (h : w.dsRoot = none) :
    load X st w = (st, w, Except.ok ()) := by
  unfold load
  rw [h]

/-- Witness for the amended C8 at a concrete input: a fresh instance over an
empty datastore loads successfully with both sets still empty. -/
theorem load_absent_ok_state_unchanged_witness :
    load collabId (freshState (List String)) { dsRoot := none } =
      (freshState (List String), { dsRoot := none }, Except.ok ()) :=
  load_absent_ok_state_unchanged collabId (freshState (List String))
    { dsRoot := none } rfl

/-! Claim C4: adding only already-present keys is a no-op. -/

/-- Claim C4: when every supplied key is already present in the target set,
addDirectPins (resp. addRecursivePins) answers the empty newly-added list,
never an error, performs no flush, and leaves the in-memory sets, the link
cache and the persisted root untouched (the returned state and world are the
input state and world). -/
theorem addPins_already_present_noop {Enc Node : Type} (X : Collab Enc Node)
    (keys : List String) (st : PMState Enc) (w : World Enc) :
    ((∀ key ∈ keys, key ∈ st.directPins) →
      addDirectPins X keys st w = (st, w, Except.ok OpOutcome.emptyList)) ∧
    ((∀ key ∈ keys, key ∈ st.recursivePins) →
      addRecursivePins X keys st w = (st, w, Except.ok OpOutcome.emptyList)) := by
  constructor
  · intro hall
    have hnil : addedKeys keys .direct st = [] := by
      rw [addedKeys, List.filter_eq_nil_iff]
      intro a ha
      simp [targetSet, hall a ha]
    unfold addDirectPins addPins
    rw [hnil]
    rfl
  · intro hall
    have hnil : addedKeys keys .recursive st = [] := by
      rw [addedKeys, List.filter_eq_nil_iff]
      intro a ha
      simp [targetSet, hall a ha]
    unfold addRecursivePins addPins
    rw [hnil]
    rfl

/-- Witness for C4 at a concrete input: re-adding the one direct pin and the
one recursive pin is the identity on state and world and answers the empty
list. -/
theorem addPins_already_present_noop_witness :
    addDirectPins collabId ["a"]
        { directPins := ["a"], recursivePins := ["b"], cacheDirect := none,
          cacheRecursive := none } { dsRoot := none } =
      ({ directPins := ["a"], recursivePins := ["b"], cacheDirect := none,
          cacheRecursive := none }, { dsRoot := none },
        Except.ok OpOutcome.emptyList) ∧
    addRecursivePins collabId ["b"]
        { directPins := ["a"], recursivePins := ["b"], cacheDirect := none,
          cacheRecursive := none } { dsRoot := none } =
      ({ directPins := ["a"], recursivePins := ["b"], cacheDirect := none,
          cacheRecursive := none }, { dsRoot := none },
        Except.ok OpOutcome.emptyList) :=
  ⟨(addPins_already_present_noop collabId ["a"] _ _).1
      (by intro key hk; simp at hk; simp [hk]),
   (addPins_already_present_noop collabId ["b"] _ _).2
      (by intro key hk; simp at hk; simp [hk])⟩

/-! Claim C1: link-cache invalidation on membership change. -/

/-- Claim C1, the code evaluated at the failing input: rmPins removes the only
recursive pin but leaves the recursive link-cache entry (the encoding of the
pre-removal set, here the list containing a) in place, and the flush run
inside the very same rmPins call reuses that stale cached link, so the
persisted root still links the encoding of the pre-removal recursive set even
though the in-memory recursive set is now empty (a fresh encoding of the empty
set would have been the empty list).  The claimed invariant — every membership
change drops the corresponding cache entry — is violated by rmPins. -/
theorem rmPins_keeps_stale_cache :
    rmPins collabId ["a"] true
        { directPins := [], recursivePins := ["a"], cacheDirect := none,
          cacheRecursive := some ["a"] } { dsRoot := none } =
      ({ directPins := [], recursivePins := [], cacheDirect := some [],
          cacheRecursive := some ["a"] },
        { dsRoot := some ([], ["a"]) },
        Except.ok (OpOutcome.flushed ([], ["a"]))) := by
  rfl

/-! Claim C2: recursive membership versus the indirect query. -/

/-- Claim C2 counterexample: with the recursive set holding a and b, and b a
descendant of a, isPinnedWithType(b, indirect) reports pinned (the indirect
descendant search runs and matches the root a) — not not-pinned as the claim
states.  Recursive membership of the queried identifier does not pre-empt the
indirect search for a type-indirect query. -/
theorem isPinnedWithType_indirect_no_preemption :
    (isPinnedWithType collabId
        { directPins := [], recursivePins := ["a", "b"], cacheDirect := none,
          cacheRecursive := none } "b" PinType.indirect).1 =
      { key := "b", pinned := true, reason := some "a" } := by
  rfl

/-- Claim C2 (amended): for an identifier in the recursive set that is also a
descendant of some member of the recursive set, isPinnedWithType with type
indirect reports pinned (the read-locked descendant search runs and finds a
match; recursive membership does not pre-empt it), while isPinnedWithType with
type all reports pinned with reason recursive on the lock-free fast path. -/
theorem isPinnedWithType_recursive_member {Enc Node : Type}
    (X : Collab Enc Node) (st : PMState Enc) (x : String)
    (hmem : X.toB58String x ∈ st.recursivePins)
    (hdesc : ∃ r ∈ st.recursivePins,
      X.hasDescendant r (X.toB58String x) = true) :
    (isPinnedWithType X st x PinType.indirect).1.pinned = true ∧
    (isPinnedWithType X st x PinType.indirect).2 = true ∧
    isPinnedWithType X st x PinType.all =
      ({ key := X.toB58String x, pinned := true, reason := some "recursive" },
        false) := by
  refine ⟨?_, ?_, ?_⟩
  · unfold isPinnedWithType
    simp only [if_neg, if_pos]
    rw [if_neg (by simp), if_neg (by simp), if_neg (by simp), if_neg (by simp)]
    rcases hfind : List.find? (fun r => X.hasDescendant r (X.toB58String x))
        st.recursivePins with _ | r
    · rcases hdesc with ⟨r, hr, hd⟩
      exact absurd hd (by simpa using List.find?_eq_none.mp hfind r hr)
    · rfl
  · unfold isPinnedWithType
    rw [if_neg (by simp), if_neg (by simp), if_neg (by simp), if_neg (by simp)]
    rcases hfind : List.find? (fun r => X.hasDescendant r (X.toB58String x))
        st.recursivePins with _ | r
    · rfl
    · rfl
  · unfold isPinnedWithType
    rw [if_pos (by exact ⟨Or.inr rfl, hmem⟩)]

/-- Witness for the amended C2 at a concrete input: b is a recursive pin and a
descendant of the recursive pin a; the indirect query reports pinned (under
the read lock) and the all query reports pinned with reason recursive. -/
theorem isPinnedWithType_recursive_member_witness :
    (isPinnedWithType collabId
        { directPins := [], recursivePins := ["a", "b"], cacheDirect := none,
          cacheRecursive := none } "b" PinType.indirect).1.pinned = true ∧
    isPinnedWithType collabId
        { directPins := [], recursivePins := ["a", "b"], cacheDirect := none,
          cacheRecursive := none } "b" PinType.all =
      ({ key := "b", pinned := true, reason := some "recursive" }, false) := by
  have h := isPinnedWithType_recursive_member collabId
    { directPins := [], recursivePins := ["a", "b"], cacheDirect := none,
      cacheRecursive := none } "b" (by simp [collabId])
    ⟨"a", by simp, by decide⟩
  exact ⟨h.1, h.2.2⟩

/-! Claim C6: the four lock-free fast paths of isPinnedWithType. -/

/-- Claim C6: resolution order of the lock-free fast paths.  With key the
canonical form of the queried identifier: for type recursive or all, key in
the recursive set answers pinned with reason recursive; for type exactly
recursive and key not in the recursive set, not pinned; for type direct (or
type all when the recursive step did not match), key in the direct set
answers pinned with reason direct; for type exactly direct and key not in the
direct set, not pinned.  Each of these answers is produced without running
the read-locked indirect search (second component false). -/
theorem isPinnedWithType_fast_paths {Enc Node : Type} (X : Collab Enc Node)
    (st : PMState Enc) (mh : String) :
    (X.toB58String mh ∈ st.recursivePins →
      isPinnedWithType X st mh PinType.recursive =
        ({ key := X.toB58String mh, pinned := true,
            reason := some "recursive" }, false) ∧
      isPinnedWithType X st mh PinType.all =
        ({ key := X.toB58String mh, pinned := true,
            reason := some "recursive" }, false)) ∧
    (X.toB58String mh ∉ st.recursivePins →
      isPinnedWithType X st mh PinType.recursive =
        ({ key := X.toB58String mh, pinned := false, reason := none },
          false)) ∧
    (X.toB58String mh ∈ st.directPins →
      isPinnedWithType X st mh PinType.direct =
        ({ key := X.toB58String mh, pinned := true, reason := some "direct" },
          false) ∧
      (X.toB58String mh ∉ st.recursivePins →
        isPinnedWithType X st mh PinType.all =
          ({ key := X.toB58String mh, pinned := true,
              reason := some "direct" }, false))) ∧
    (X.toB58String mh ∉ st.directPins →
      isPinnedWithType X st mh PinType.direct =
        ({ key := X.toB58String mh, pinned := false, reason := none },
          false)) := by
  refine ⟨?_, ?_, ?_, ?_⟩
  · intro h
    constructor
    · unfold isPinnedWithType
      rw [if_pos ⟨Or.inl rfl, h⟩]
    · unfold isPinnedWithType
      rw [if_pos ⟨Or.inr rfl, h⟩]
  · intro h
    unfold isPinnedWithType
    rw [if_neg (by simp [h]), if_pos rfl]
  · intro h
    constructor
    · unfold isPinnedWithType
      rw [if_neg (by simp), if_neg (by simp), if_pos ⟨Or.inl rfl, h⟩]
    · intro hrec
      unfold isPinnedWithType
      rw [if_neg (by simp [hrec]), if_neg (by simp),
        if_pos ⟨Or.inr rfl, h⟩]
  · intro h
    unfold isPinnedWithType
    rw [if_neg (by simp [h]), if_neg (by simp), if_neg (by simp [h]),
      if_pos rfl]

/-- Witness for C6 at concrete inputs: all four fast paths evaluated on a
state with direct pin d and recursive pin r. -/
theorem isPinnedWithType_fast_paths_witness :
    isPinnedWithType collabId
        { directPins := ["d"], recursivePins := ["r"], cacheDirect := none,
          cacheRecursive := none } "r" PinType.recursive =
      ({ key := "r", pinned := true, reason := some "recursive" }, false) ∧
    isPinnedWithType collabId
        { directPins := ["d"], recursivePins := ["r"], cacheDirect := none,
          cacheRecursive := none } "d" PinType.recursive =
      ({ key := "d", pinned := false, reason := none }, false) ∧
    isPinnedWithType collabId
        { directPins := ["d"], recursivePins := ["r"], cacheDirect := none,
          cacheRecursive := none } "d" PinType.all =
      ({ key := "d", pinned := true, reason := some "direct" }, false) ∧
    isPinnedWithType collabId
        { directPins := ["d"], recursivePins := ["r"], cacheDirect := none,
          cacheRecursive := none } "r" PinType.direct =
      ({ key := "r", pinned := false, reason := none }, false) := by
  refine ⟨?_, ?_, ?_, ?_⟩
  · exact ((isPinnedWithType_fast_paths collabId _ "r").1 (by decide)).1
  · exact (isPinnedWithType_fast_paths collabId _ "d").2.1 (by decide)
  · exact ((isPinnedWithType_fast_paths collabId _ "d").2.2.1 (by decide)).2
      (by decide)
  · exact (isPinnedWithType_fast_paths collabId _ "r").2.2.2 (by decide)

/-! Claim C10: verbatim insertion versus canonicalized lookup. -/

theorem addPins_state {Enc Node : Type} (X : Collab Enc Node)
    (keys : List String) (k : StoreKind) (st : PMState Enc) (w : World Enc) :
    (addPins X keys k st w).1 =
      if (addedKeys keys k st).isEmpty then st
      else (flushPins X (addMutatedState keys k st) w).1 := by
  unfold addPins
  by_cases hemp : (addedKeys keys k st).isEmpty
  · rw [if_pos hemp, if_pos hemp]
  · rw [if_neg hemp, if_neg hemp]

theorem mem_addMutated_target {Enc : Type} (keys : List String)
    (k : StoreKind) (st : PMState Enc) (c : String) :
    c ∈ targetSet k (addMutatedState keys k st) ↔
      c ∈ targetSet k st ∨ c ∈ keys := by
  cases k with
  | direct =>
    show c ∈ List.foldl setAdd st.directPins (addedKeys keys .direct st) ↔ _
    rw [mem_foldl_setAdd]
    constructor
    · rintro (h | h)
      · exact Or.inl h
      · rw [addedKeys, List.mem_filter] at h
        exact Or.inr h.1
    · rintro (h | h)
      · exact Or.inl h
      · by_cases hc : c ∈ st.directPins
        · exact Or.inl hc
        · refine Or.inr ?_
          rw [addedKeys, List.mem_filter]
          exact ⟨h, by simpa [targetSet] using hc⟩
  | recursive =>
    show c ∈ List.foldl setAdd st.recursivePins
      (addedKeys keys .recursive st) ↔ _
    rw [mem_foldl_setAdd]
    constructor
    · rintro (h | h)
      · exact Or.inl h
      · rw [addedKeys, List.mem_filter] at h
        exact Or.inr h.1
    · rintro (h | h)
      · exact Or.inl h
      · by_cases hc : c ∈ st.recursivePins
        · exact Or.inl hc
        · refine Or.inr ?_
          rw [addedKeys, List.mem_filter]
          exact ⟨h, by simpa [targetSet] using hc⟩

theorem addPins_target_mem_iff {Enc Node : Type} (X : Collab Enc Node)
    (keys : List String) (k : StoreKind) (st : PMState Enc) (w : World Enc)
    (c : String) :
    c ∈ targetSet k (addPins X keys k st w).1 ↔
      c ∈ targetSet k st ∨ c ∈ keys := by
  rw [addPins_state]
  by_cases hemp : (addedKeys keys k st).isEmpty
  · rw [if_pos hemp]
    have hnil : addedKeys keys k st = [] := by
      cases haK : addedKeys keys k st with
      | nil => rfl
      | cons x xs => rw [haK] at hemp; cases hemp
    have hsub : ∀ key ∈ keys, key ∈ targetSet k st := by
      intro a ha
      by_contra hna
      have hmemf : a ∈ addedKeys keys k st := by
        rw [addedKeys, List.mem_filter]
        exact ⟨ha, by simpa using hna⟩
      rw [hnil] at hmemf
      cases hmemf
    constructor
    · exact Or.inl
    · rintro (h | h)
      · exact h
      · exact hsub c h
  · rw [if_neg hemp]
    cases k with
    | direct =>
      show c ∈ (flushPins X (addMutatedState keys .direct st) w).1.directPins ↔ _
      rw [flushPins_directPins]
      exact mem_addMutated_target keys .direct st c
    | recursive =>
      show c ∈ (flushPins X
        (addMutatedState keys .recursive st) w).1.recursivePins ↔ _
      rw [flushPins_recursivePins]
      exact mem_addMutated_target keys .recursive st c

/-- Claim C10: addDirectPins and addRecursivePins insert the caller-supplied
key strings verbatim, while isPinnedWithType canonicalizes its input through
toB58String before the membership test; hence a key whose canonical form
differs from the inserted string (and whose canonical form is not itself
present anywhere) is in the in-memory set yet the lock-free fast path of
isPinnedWithType on that same identifier reports not pinned. -/
theorem addPins_verbatim_vs_canonical {Enc Node : Type} (X : Collab Enc Node)
    (keys : List String) (s : String) (st : PMState Enc) (w : World Enc)
    (hs : s ∈ keys) (hne : X.toB58String s ≠ s)
    (hdir : X.toB58String s ∉ st.directPins)
    (hrec : X.toB58String s ∉ st.recursivePins)
    (hkeys : X.toB58String s ∉ keys) :
    (s ∈ (addDirectPins X keys st w).1.directPins ∧
      (isPinnedWithType X (addDirectPins X keys st w).1 s
        PinType.direct).1.pinned = false) ∧
    (s ∈ (addRecursivePins X keys st w).1.recursivePins ∧
      (isPinnedWithType X (addRecursivePins X keys st w).1 s
        PinType.recursive).1.pinned = false) := by
  have hmemd : s ∈ targetSet .direct (addPins X keys .direct st w).1 :=
    (addPins_target_mem_iff X keys .direct st w s).mpr (Or.inr hs)
  have hmemr : s ∈ targetSet .recursive (addPins X keys .recursive st w).1 :=
    (addPins_target_mem_iff X keys .recursive st w s).mpr (Or.inr hs)
  have hnotd : X.toB58String s ∉
      targetSet .direct (addPins X keys .direct st w).1 := by
    rw [addPins_target_mem_iff]
    rintro (h | h)
    · exact hdir h
    · exact hkeys h
  have hnotr : X.toB58String s ∉
      targetSet .recursive (addPins X keys .recursive st w).1 := by
    rw [addPins_target_mem_iff]
    rintro (h | h)
    · exact hrec h
    · exact hkeys h
  refine ⟨⟨hmemd, ?_⟩, ⟨hmemr, ?_⟩⟩
  · unfold isPinnedWithType
    rw [if_neg (by simp), if_neg (by simp),
      if_neg (fun hc => hnotd hc.2), if_pos rfl]
  · unfold isPinnedWithType
    rw [if_neg (fun hc => hnotr hc.2), if_pos rfl]

/-- Collaborators whose canonicalization is not the identity: the canonical
base58 form of a key string s is s with x appended. -/
def collabCanon : Collab (List String) String :=
  { collabId with toB58String := fun s => s ++ "x" }

/-- Witness for C10 at a concrete input: after addDirectPins of the
non-canonical string a, a is in the direct set verbatim but the fast path of
isPinnedWithType on a (which looks up the canonical form ax) reports not
pinned. -/
theorem addPins_verbatim_vs_canonical_witness :
    "a" ∈ (addDirectPins collabCanon ["a"] (freshState (List String))
        { dsRoot := none }).1.directPins ∧
    (isPinnedWithType collabCanon
        (addDirectPins collabCanon ["a"] (freshState (List String))
          { dsRoot := none }).1 "a" PinType.direct).1.pinned = false := by
  have h := addPins_verbatim_vs_canonical collabCanon ["a"] "a"
    (freshState (List String)) { dsRoot := none } (by simp) (by decide)
    (by decide) (by decide) (by decide)
  exact ⟨h.1.1, h.1.2⟩

/-! Claim C3: getIndirectKeys excludes recursive pins. -/

theorem getIndirectKeysGo_mem {Enc Node : Type} (X : Collab Enc Node)
    (pins : List String) :
    ∀ (rs acc l : List String), getIndirectKeysGo X pins rs acc = .ok l →
      ∀ c : String, c ∈ l ↔ c ∈ acc ∨
        (c ∉ pins ∧ ∃ r ∈ rs, ∃ ns,
          X.getRecursive (X.toBuf r) = Except.ok ns ∧
          ∃ n ∈ ns, X.cidOf n = c) := by
  intro rs
  induction rs with
  | nil =>
    intro acc l h c
    rw [getIndirectKeysGo] at h
    cases h
    simp
  | cons r rs ih =>
    intro acc l h c
    rw [getIndirectKeysGo] at h
    cases hget : X.getRecursive (X.toBuf r) with
    | error e => rw [hget] at h; cases h
    | ok ns =>
      rw [hget] at h
      rw [ih _ l h c, mem_foldl_setAdd]
      constructor
      · rintro ((hacc | hflt) | ⟨hnp, r2, hr2, q⟩)
        · exact Or.inl hacc
        · rw [List.mem_filter] at hflt
          rcases List.mem_map.mp hflt.1 with ⟨n, hn, hcid⟩
          refine Or.inr ⟨by simpa using hflt.2, r, List.mem_cons_self r rs,
            ns, hget, n, hn, hcid⟩
        · exact Or.inr ⟨hnp, r2, List.mem_cons_of_mem r hr2, q⟩
      · rintro (hacc | ⟨hnp, r2, hr2, ns2, hns2, n, hn, hcid⟩)
        · exact Or.inl (Or.inl hacc)
        · rcases List.mem_cons.mp hr2 with rfl | hr2tl
          · rw [hget] at hns2
            injection hns2 with hns2
            subst hns2
            refine Or.inl (Or.inr ?_)
            rw [List.mem_filter]
            exact ⟨List.mem_map.mpr ⟨n, hn, hcid⟩, by simpa using hnp⟩
          · exact Or.inr ⟨hnp, r2, hr2tl, ns2, hns2, n, hn, hcid⟩

/-- Claim C3: a successful getIndirectKeys never returns an identifier that is
itself a member of the recursive set, and it returns exactly the addresses
derived (via cidOf) from the fetched transitive closure of some recursive
root, minus those addresses that are recursive pins themselves. -/
theorem getIndirectKeys_spec {Enc Node : Type} (X : Collab Enc Node)
    (st : PMState Enc) (l : List String)
    (h : getIndirectKeys X st = .ok l) :
    (∀ c ∈ l, c ∉ st.recursivePins) ∧
    (∀ c : String, c ∈ l ↔ c ∉ st.recursivePins ∧
      ∃ r ∈ st.recursivePins, ∃ ns,
        X.getRecursive (X.toBuf r) = Except.ok ns ∧
        ∃ n ∈ ns, X.cidOf n = c) := by
  have hmem := getIndirectKeysGo_mem X st.recursivePins st.recursivePins [] l h
  constructor
  · intro c hc
    rcases (hmem c).mp hc with hfalse | ⟨hnp, _⟩
    · cases hfalse
    · exact hnp
  · intro c
    rw [hmem c]
    simp

/-- Collaborators used to evaluate getIndirectKeys on a closure with a proper
descendant: the transitive closure of a root r is r itself plus the node z. -/
def collabWide : Collab (List String) String :=
  { collabId with getRecursive := fun r => .ok [r, "z"] }

/-- Witness for C3 at a concrete input: with recursive set holding only a and
the closure of a being a and z, getIndirectKeys returns exactly z (a itself,
being a recursive pin, is excluded), and z is not a recursive pin. -/
theorem getIndirectKeys_spec_witness :
    getIndirectKeys collabWide
        { directPins := [], recursivePins := ["a"], cacheDirect := none,
          cacheRecursive := none } = Except.ok ["z"] ∧
    "z" ∉ ({ directPins := [], recursivePins := ["a"], cacheDirect := none,
             cacheRecursive := none } : PMState (List String)).recursivePins := by
  refine ⟨rfl, ?_⟩
  exact (getIndirectKeys_spec collabWide
    { directPins := [], recursivePins := ["a"], cacheDirect := none,
      cacheRecursive := none } ["z"] rfl).1 "z" (by simp)

/-! Claim C9: mutation-then-flush is not atomic. -/

theorem addPins_nonempty_components {Enc Node : Type} (X : Collab Enc Node)
    (keys : List String) (k : StoreKind) (st : PMState Enc) (w : World Enc)
    (h : (addedKeys keys k st).isEmpty = false) :
    addPins X keys k st w =
      ((flushPins X (addMutatedState keys k st) w).1,
        (flushPins X (addMutatedState keys k st) w).2.1,
        (flushPins X (addMutatedState keys k st) w).2.2.map
          OpOutcome.flushed) := by
  unfold addPins
  rw [if_neg (by simp [h])]

theorem rmPins_nonempty_components {Enc Node : Type} (X : Collab Enc Node)
    (keys : List String) (recursive : Bool) (st : PMState Enc)
    (w : World Enc) (h : keys.isEmpty = false) :
    rmPins X keys recursive st w =
      ((flushPins X (rmMutatedState keys recursive st) w).1,
        (flushPins X (rmMutatedState keys recursive st) w).2.1,
        (flushPins X (rmMutatedState keys recursive st) w).2.2.map
          OpOutcome.flushed) := by
  unfold rmPins
  rw [if_neg (by simp [h])]

/-- Claim C9: in addDirectPins / addRecursivePins (both are addPins) and in
rmPins the in-memory sets are mutated before the flush runs; when the flush
fails, the operation reports exactly the flush failure, the in-memory sets of
the resulting state are precisely the mutated sets (no rollback — memory and
the durable root diverge, the durable world being left unchanged), and no
retry happens (the result is the single flush attempt's error). -/
theorem mutation_before_flush_diverges {Enc Node : Type} (X : Collab Enc Node)
    (st : PMState Enc) (w : World Enc) (keys : List String) (e : String) :
    (∀ k : StoreKind, (addedKeys keys k st).isEmpty = false →
      (flushPins X (addMutatedState keys k st) w).2.2 = Except.error e →
      (addPins X keys k st w).2.2 = Except.error e ∧
      (addPins X keys k st w).1.directPins =
        (addMutatedState keys k st).directPins ∧
      (addPins X keys k st w).1.recursivePins =
        (addMutatedState keys k st).recursivePins ∧
      (addPins X keys k st w).2.1 = w) ∧
    (keys.isEmpty = false → ∀ recursive : Bool,
      (flushPins X (rmMutatedState keys recursive st) w).2.2 =
        Except.error e →
      (rmPins X keys recursive st w).2.2 = Except.error e ∧
      (rmPins X keys recursive st w).1.directPins =
        (rmMutatedState keys recursive st).directPins ∧
      (rmPins X keys recursive st w).1.recursivePins =
        (rmMutatedState keys recursive st).recursivePins ∧
      (rmPins X keys recursive st w).2.1 = w) := by
  constructor
  · intro k hne hfl
    rw [addPins_nonempty_components X keys k st w hne]
    exact ⟨by rw [hfl]; rfl, flushPins_directPins X _ w,
      flushPins_recursivePins X _ w, flushPins_error_world X _ w e hfl⟩
  · intro hne recursive hfl
    rw [rmPins_nonempty_components X keys recursive st w hne]
    exact ⟨by rw [hfl]; rfl, flushPins_directPins X _ w,
      flushPins_recursivePins X _ w, flushPins_error_world X _ w e hfl⟩

/-- Collaborators whose final datastore write fails: the flush always aborts
in its last step with the error boom. -/
def collabFail : Collab (List String) String :=
  { collabId with dsPutRoot := fun _ => .error "boom" }

/-- Witness for C9 at concrete inputs: an add of a over a failing datastore
reports the flush error while the direct set already holds a and the durable
root is still unwritten; a recursive removal of a over the failing datastore
reports the flush error while the recursive set is already emptied. -/
theorem mutation_before_flush_diverges_witness :
    (addPins collabFail ["a"] StoreKind.direct (freshState (List String))
        { dsRoot := none }).2.2 = Except.error "boom" ∧
    (addPins collabFail ["a"] StoreKind.direct (freshState (List String))
        { dsRoot := none }).1.directPins = ["a"] ∧
    (addPins collabFail ["a"] StoreKind.direct (freshState (List String))
        { dsRoot := none }).2.1 = { dsRoot := none } ∧
    (rmPins collabFail ["a"] true
        { directPins := [], recursivePins := ["a"], cacheDirect := none,
          cacheRecursive := none } { dsRoot := none }).2.2 =
      Except.error "boom" ∧
    (rmPins collabFail ["a"] true
        { directPins := [], recursivePins := ["a"], cacheDirect := none,
          cacheRecursive := none } { dsRoot := none }).1.recursivePins =
      [] := by
  have h1 := (mutation_before_flush_diverges collabFail
    (freshState (List String)) { dsRoot := none } ["a"] "boom").1
    StoreKind.direct rfl rfl
  have h2 := (mutation_before_flush_diverges collabFail
    { directPins := [], recursivePins := ["a"], cacheDirect := none,
      cacheRecursive := none } { dsRoot := none } ["a"] "boom").2
    rfl true rfl
  refine ⟨h1.1, ?_, h1.2.2.2, h2.1, ?_⟩
  · rw [h1.2.1]
    rfl
  · rw [h2.2.2.1]
    rfl

/-! Claim C5: flush then load round trip. -/

theorem map_canon_id (f g : String → String) :
    ∀ l : List String, (∀ s ∈ l, g (f s) = s) → (l.map f).map g = l := by
  intro l
  induction l with
  | nil => intro _; rfl
  | cons x xs ih =>
    intro h
    simp only [List.map_cons, List.cons.injEq]
    exact ⟨h x (by simp), ih (fun s hs => h s (by simp [hs]))⟩

/-- Claim C5: for any contents d, r of the direct and recursive in-memory
sets (duplicate-free, canonically-formed, with the link cache empty as on a
fresh instance), when loadSet inverts storeSet and the store steps succeed, a
flush followed by a load on a fresh PinManager instance over the stores the
flush produced reproduces exactly the same direct and recursive membership
sets. -/
theorem flush_then_load_round_trip {Enc Node : Type} (X : Collab Enc Node)
    (d r : List String)
    (hinv : ∀ l lbl, ∃ enc, X.storeSet l lbl = Except.ok enc ∧
      X.loadSet enc = Except.ok l)
    (hcd : ∀ s ∈ d, X.toB58String (X.toBuf s) = s)
    (hcr : ∀ s ∈ r, X.toB58String (X.toBuf s) = s)
    (hdnd : d.Nodup) (hrnd : r.Nodup)
    (hempty : X.putEmpty = Except.ok ())
    (hreopen : X.reopen = Except.ok ())
    (hdag : ∀ root, X.dagPutRoot root = Except.ok ())
    (hds : ∀ root, X.dsPutRoot root = Except.ok ())
    (w : World Enc) :
    ∃ root,
      (flushPins X
          { directPins := d, recursivePins := r,
            cacheDirect := none, cacheRecursive := none } w).2.2 =
        Except.ok root ∧
      load X (freshState Enc)
        (flushPins X
          { directPins := d, recursivePins := r,
            cacheDirect := none, cacheRecursive := none } w).2.1 =
        ({ directPins := d, recursivePins := r, cacheDirect := none,
            cacheRecursive := none },
          { dsRoot := some root }, Except.ok ()) := by
  obtain ⟨eD, hsD, hlD⟩ := hinv (d.map X.toBuf) "direct"
  obtain ⟨eR, hsR, hlR⟩ := hinv (r.map X.toBuf) "recursive"
  have hflush : flushPins X
      { directPins := d, recursivePins := r,
        cacheDirect := none, cacheRecursive := none } w =
      ({ directPins := d, recursivePins := r, cacheDirect := some eD,
          cacheRecursive := some eR },
        { dsRoot := some (eD, eR) }, Except.ok (eD, eR)) := by
    unfold flushPins directKeys recursiveKeys
    simp only [hsD, hsR, hempty, hdag, hreopen, hds, cacheAfter]
  refine ⟨(eD, eR), by rw [hflush], ?_⟩
  rw [hflush]
  show load X (freshState Enc) { dsRoot := some (eD, eR) } = _
  unfold load freshState
  simp only [hlR, hlD]
  rw [map_canon_id X.toBuf X.toB58String d hcd,
    map_canon_id X.toBuf X.toB58String r hcr,
    newSetOf_eq_self hdnd, newSetOf_eq_self hrnd]

/-- Witness for C5 at a concrete input: flushing direct set x and recursive
set y then loading on a fresh instance reproduces exactly x and y. -/
theorem flush_then_load_round_trip_witness :
    ∃ root,
      (flushPins collabId
          { directPins := ["x"], recursivePins := ["y"],
            cacheDirect := none, cacheRecursive := none }
          { dsRoot := none }).2.2 =
        Except.ok root ∧
      load collabId (freshState (List String))
        (flushPins collabId
          { directPins := ["x"], recursivePins := ["y"],
            cacheDirect := none, cacheRecursive := none }
          { dsRoot := none }).2.1 =
        ({ directPins := ["x"], recursivePins := ["y"], cacheDirect := none,
            cacheRecursive := none },
          { dsRoot := some root }, Except.ok ()) :=
  flush_then_load_round_trip collabId ["x"] ["y"]
    (fun l _ => ⟨l, rfl, rfl⟩) (fun _ _ => rfl) (fun _ _ => rfl)
    (by simp) (by simp) rfl rfl (fun _ => rfl) (fun _ => rfl)
    { dsRoot := none }
